import Mathlib

/-!
Verification model of the Jenkins MCP adapter (src/mcp/jenkins.mjs).

Strings manipulated character-by-character by the adapter (console logs, job
identifiers) are modelled as Lean `String` / `List Char`; JavaScript
`split` / `join` / `slice` are transliterated as structural functions on
`List Char`.  The HTTP layer is modelled by a `fetch : Request → HttpResponse`
parameter: a tool invocation is a pure function of the responses the remote
server would give to the requests it issues.  Fallible steps return
`Except String _`, the error string being exactly the message the adapter
throws.  JSON parsing of a response body (the `res.json()` step of the
JavaScript `fetch` API, which is not part of this repository) is likewise a
function parameter from the body to the structured value the adapter reads.
-/

namespace Jenkins

/-- Uppercase hexadecimal digit for a value below 16 (as used by
percent-encoding). -/
def hexDigit (n : Nat) : Char :=
  if n < 10 then Char.ofNat (48 + n) else Char.ofNat (55 + n)

/-- UTF-8 byte sequence of a Unicode code point, as a list of byte values. -/
def utf8Bytes (n : Nat) : List Nat :=
  if n < 128 then [n]
  else if n < 2048 then [192 + n / 64, 128 + n % 64]
  else if n < 65536 then [224 + n / 4096, 128 + n / 64 % 64, 128 + n % 64]
  else [240 + n / 262144, 128 + n / 4096 % 64, 128 + n / 64 % 64, 128 + n % 64]

/-- Percent-encoding of one byte: a percent sign followed by two uppercase
hex digits. -/
def pctByte (b : Nat) : List Char :=
  ['%', hexDigit (b / 16), hexDigit (b % 16)]

/-- Characters left unescaped by JavaScript `encodeURIComponent`:
letters, digits, and - _ . ! ~ * ' ( ). -/
def uriUnreserved (c : Char) : Bool :=
  c.isAlphanum || c = '-' || c = '_' || c = '.' || c = '!' || c = '~' ||
    c = '*' || c.toNat = 39 || c = '(' || c = ')'

/-- JavaScript `encodeURIComponent` on a character list: unreserved
characters pass through, every other character is replaced by the
percent-encoding of its UTF-8 bytes. -/
def encodeURIComponentL (cs : List Char) : List Char :=
  cs.flatMap fun c =>
    if uriUnreserved c then [c] else (utf8Bytes c.toNat).flatMap pctByte

/-- JavaScript `encodeURIComponent` on strings. -/
def encodeURIComponent (s : String) : String :=
  String.mk (encodeURIComponentL s.data)

/-- JavaScript `str.split(sep)` for a single-character separator:
an empty input gives one empty piece, a separator character closes the
current piece and opens a new one. -/
def splitOnChar (sep : Char) : List Char → List (List Char)
  | [] => [[]]
  | c :: cs =>
    match splitOnChar sep cs with
    | [] => [[c]]
    | l :: ls => if c = sep then [] :: l :: ls else (c :: l) :: ls

/-- JavaScript `arr.join(sep)` for a single-character separator. -/
def joinChar (sep : Char) : List (List Char) → List Char
  | [] => []
  | [l] => l
  | l :: ls => l ++ sep :: joinChar sep ls

/-- Body of `jobPath` (src/mcp/jenkins.mjs:28-33) on character lists:
split the job name on '/', map each segment to the literal marker "job/"
followed by its percent-encoded form, and join the results with '/'. -/
def jobPathL (jobName : List Char) : List Char :=
  joinChar '/'
    ((splitOnChar '/' jobName).map fun s => "job/".data ++ encodeURIComponentL s)

/-- `jobPath` of src/mcp/jenkins.mjs:28-33. -/
def jobPath (jobName : String) : String :=
  String.mk (jobPathL jobName.data)

-- ── Basic split/join facts ──────────────────────────────────────────────────

theorem splitOnChar_ne_nil (sep : Char) (cs : List Char) :
    splitOnChar sep cs ≠ [] := by
  cases cs with
  | nil => simp [splitOnChar]
  | cons c cs =>
    simp only [splitOnChar]
    cases h : splitOnChar sep cs with
    | nil => simp
    | cons l ls =>
      by_cases hc : c = sep <;> simp [hc]

theorem joinChar_cons_of_ne_nil (sep : Char) (x : List Char)
    (r : List (List Char)) (h : r ≠ []) :
    joinChar sep (x :: r) = x ++ sep :: joinChar sep r := by
  cases r with
  | nil => exact absurd rfl h
  | cons y ys => rfl

theorem splitOnChar_cons_sep (sep : Char) (cs l : List Char)
    (ls : List (List Char)) (h : splitOnChar sep cs = l :: ls) :
    splitOnChar sep (sep :: cs) = [] :: l :: ls := by
  simp [splitOnChar, h]

theorem splitOnChar_cons_ne (sep c : Char) (hc : c ≠ sep) (cs l : List Char)
    (ls : List (List Char)) (h : splitOnChar sep cs = l :: ls) :
    splitOnChar sep (c :: cs) = (c :: l) :: ls := by
  simp [splitOnChar, h, hc]

/-- Joining the pieces of a split reconstructs the original list. -/
theorem joinChar_splitOnChar (sep : Char) (cs : List Char) :
    joinChar sep (splitOnChar sep cs) = cs := by
  induction cs with
  | nil => rfl
  | cons c cs ih =>
    rcases h : splitOnChar sep cs with _ | ⟨l, ls⟩
    · exact absurd h (splitOnChar_ne_nil sep cs)
    · rw [h] at ih
      by_cases hc : c = sep
      · rw [hc, splitOnChar_cons_sep sep cs l ls h,
          joinChar_cons_of_ne_nil sep [] (l :: ls) (by simp)]
        simpa using ih
      · rw [splitOnChar_cons_ne sep c hc cs l ls h]
        cases ls with
        | nil => simpa [joinChar] using congrArg (c :: ·) ih
        | cons m ms =>
          simp only [joinChar] at ih ⊢
          rw [List.cons_append, ih]

/-- Dropping leading pieces before joining yields a suffix of the full join. -/
theorem joinChar_drop_suffix (sep : Char) :
    ∀ (j : Nat) (l : List (List Char)),
      joinChar sep (l.drop j) <:+ joinChar sep l := by
  intro j
  induction j with
  | zero => intro l; exact List.suffix_refl _
  | succ j ih =>
    intro l
    cases l with
    | nil => exact List.suffix_refl _
    | cons x xs =>
      have h1 : joinChar sep (xs.drop j) <:+ joinChar sep xs := ih xs
      have h2 : joinChar sep xs <:+ joinChar sep (x :: xs) := by
        cases xs with
        | nil => exact List.nil_suffix
        | cons y ys =>
          refine ⟨x ++ [sep], ?_⟩
          rw [joinChar_cons_of_ne_nil sep x (y :: ys) (by simp)]
          simp
      exact h1.trans h2

-- ── C2 ──────────────────────────────────────────────────────────────────────

/-- C2: the Job Path Resolver splits the job identifier on '/',
percent-encodes each segment individually, prefixes each encoded segment
with the job-container marker "job/", and joins the results with '/'; an
identifier with N slash-separated segments hence yields N marked components,
the i-th being the marker followed by the percent-encoding of the i-th
segment, and the empty identifier resolves to a single marker with an
empty-named segment. -/
theorem jobPath_marks_each_segment (jobName : List Char) :
    jobPathL jobName
      = joinChar '/'
          (((splitOnChar '/' jobName).map encodeURIComponentL).map
            fun e => "job/".data ++ e)
    ∧ (((splitOnChar '/' jobName).map encodeURIComponentL).map
        fun e => "job/".data ++ e).length
      = (splitOnChar '/' jobName).length
    ∧ jobPathL [] = "job/".data := by
  refine ⟨?_, by simp, by decide⟩
  rw [List.map_map]
  rfl

-- ── HTTP model ──────────────────────────────────────────────────────────────

/-- An HTTP request the adapter issues: the path appended to the base URL,
the method, and the optional form body. GET requests carry no body. -/
structure Request where
  path : String
  method : String
  body : Option String
deriving DecidableEq, Repr

/-- The parts of a `fetch` response the adapter reads: numeric status,
status text, body text, and the Location header (absent is `none`). -/
structure HttpResponse where
  status : Nat
  statusText : String
  body : String
  location : Option String
deriving DecidableEq, Repr

/-- `res.ok` of the fetch API: status in the inclusive range 200-299. -/
def HttpResponse.ok (r : HttpResponse) : Bool :=
  decide (200 ≤ r.status) && decide (r.status ≤ 299)

/-- JavaScript `s.slice(0, n)` on a string: its first `n` characters
(all of it when shorter). -/
def sliceTo (s : String) (n : Nat) : String :=
  String.mk (s.data.take n)

/-- The message of the error thrown by `jenkins` (src/mcp/jenkins.mjs:43)
on a non-2xx response: status code, status text, and the first 500
characters of the body. -/
def jenkinsErrorText (r : HttpResponse) : String :=
  "Jenkins " ++ toString r.status ++ " " ++ r.statusText ++ ": " ++
    sliceTo r.body 500

/-- The `jenkins` helper (src/mcp/jenkins.mjs:35-46): issue the request
and fail with the formatted error on a non-2xx status. -/
def jenkins (fetch : Request → HttpResponse) (req : Request) :
    Except String HttpResponse :=
  let res := fetch req
  if res.ok then Except.ok res else Except.error (jenkinsErrorText res)

-- ── Console output (get_console_output) ─────────────────────────────────────

/-- Tail step of `jenkins_get_console_output` (src/mcp/jenkins.mjs:145-148):
when a strictly positive tail count is given, split the text on newlines
and keep only the last `tail` lines, rejoined with newlines
(JavaScript `lines.slice(-tail).join("\n")`); otherwise leave the text
unchanged. -/
def tailLines (text : List Char) (tail : Option Int) : List Char :=
  match tail with
  | some k =>
    if 0 < k then
      let lines := splitOnChar '\n' text
      joinChar '\n' (lines.drop (lines.length - k.toNat))
    else text
  | none => text

/-- Truncation step of `jenkins_get_console_output`
(src/mcp/jenkins.mjs:150-154): past 100,000 characters keep only the
trailing 100,000 (JavaScript `text.slice(-100_000)`) and prepend the
truncation marker. -/
def truncateOutput (text : List Char) : List Char :=
  if 100000 < text.length then
    "[... truncated ...]\n".data ++ text.drop (text.length - 100000)
  else text

/-- The request issued by `jenkins_get_console_output`
(src/mcp/jenkins.mjs:142). -/
def consoleRequest (job buildRef : String) : Request :=
  ⟨jobPath job ++ "/" ++ buildRef ++ "/consoleText", "GET", none⟩

/-- `jenkins_get_console_output` (src/mcp/jenkins.mjs:141-157): fetch the
console text, apply the tail step then the truncation step. -/
def jenkins_get_console_output (fetch : Request → HttpResponse)
    (job buildRef : String) (tail : Option Int) : Except String (List Char) :=
  match jenkins fetch (consoleRequest job buildRef) with
  | Except.error e => Except.error e
  | Except.ok res => Except.ok (truncateOutput (tailLines res.body.data tail))

-- ── C3 ──────────────────────────────────────────────────────────────────────

/-- C3: when the console text exceeds 100,000 characters the truncation
step returns exactly the trailing 100,000 characters of the original
content, prefixed by the truncation marker; at 100,000 characters or fewer
the text passes through unchanged. -/
theorem console_truncation (text : List Char) :
    (100000 < text.length →
      truncateOutput text
          = "[... truncated ...]\n".data
              ++ text.drop (text.length - 100000)
        ∧ (text.drop (text.length - 100000)).length = 100000
        ∧ text.drop (text.length - 100000) <:+ text)
    ∧ (text.length ≤ 100000 → truncateOutput text = text) := by
  constructor
  · intro h
    refine ⟨if_pos h, ?_, List.drop_suffix _ _⟩
    rw [List.length_drop]
    exact Nat.sub_sub_self (Nat.le_of_lt h)
  · intro h
    exact if_neg (by omega)

/-- C3 witness: a 100,001-character log is truncated to its trailing
100,000 characters behind the marker, and a one-character log passes
through the truncation step unchanged. -/
theorem console_truncation_check :
    truncateOutput (List.replicate 100001 'a')
        = "[... truncated ...]\n".data
            ++ (List.replicate 100001 'a').drop
                ((List.replicate 100001 'a').length - 100000)
      ∧ truncateOutput ['a'] = ['a'] := by
  constructor
  · exact ((console_truncation (List.replicate 100001 'a')).1
      (by rw [List.length_replicate]; omega)).1
  · exact (console_truncation ['a']).2 (by decide)

-- ── C4 ──────────────────────────────────────────────────────────────────────

/-- C4: with a tail count K, on console text of M newline-separated lines
with M greater than K, the tail step returns exactly the last K lines
joined with newlines, and that result is a suffix of the original text. -/
theorem console_tail_last_lines (text : List Char) (K : Int)
    (hK : 0 < K) (hM : K.toNat < (splitOnChar '\n' text).length) :
    tailLines text (some K)
        = joinChar '\n'
            ((splitOnChar '\n' text).drop
              ((splitOnChar '\n' text).length - K.toNat))
      ∧ ((splitOnChar '\n' text).drop
          ((splitOnChar '\n' text).length - K.toNat)).length = K.toNat
      ∧ tailLines text (some K) <:+ text := by
  have he : tailLines text (some K)
      = joinChar '\n'
          ((splitOnChar '\n' text).drop
            ((splitOnChar '\n' text).length - K.toNat)) := by
    simp only [tailLines, if_pos hK]
  refine ⟨he, ?_, ?_⟩
  · rw [List.length_drop]
    exact Nat.sub_sub_self (Nat.le_of_lt hM)
  · rw [he]
    have := joinChar_drop_suffix '\n'
      ((splitOnChar '\n' text).length - K.toNat) (splitOnChar '\n' text)
    rwa [joinChar_splitOnChar] at this

/-- C4 witness: on the three-line log "a\nb\nc" with tail 2, the tail step
returns "b\nc", the last two lines, a suffix of the original. -/
theorem console_tail_last_lines_check :
    tailLines ['a', '\n', 'b', '\n', 'c'] (some 2) = ['b', '\n', 'c']
      ∧ tailLines ['a', '\n', 'b', '\n', 'c'] (some 2)
          <:+ ['a', '\n', 'b', '\n', 'c'] := by
  have h := console_tail_last_lines ['a', '\n', 'b', '\n', 'c'] 2
    (by decide) (by decide)
  exact ⟨by rw [h.1]; decide, h.2.2⟩

-- ── C10 ─────────────────────────────────────────────────────────────────────

/-- C10: an absent tail count, and a zero or negative (falsy or
non-positive) tail count, leave the console text unchanged by the tail
step; only a strictly positive count triggers the last-N-lines
selection. -/
theorem tail_nonpositive_noop (text : List Char) (k : Int) :
    tailLines text none = text
      ∧ (k ≤ 0 → tailLines text (some k) = text)
      ∧ (0 < k → tailLines text (some k)
          = joinChar '\n'
              ((splitOnChar '\n' text).drop
                ((splitOnChar '\n' text).length - k.toNat))) := by
  refine ⟨rfl, ?_, ?_⟩
  · intro h
    have hn : ¬ (0 < k) := by omega
    simp only [tailLines, if_neg hn]
  · intro h
    simp only [tailLines, if_pos h]

/-- C10 witness: on the log "a\nb", a tail of 0 and a tail of -3 both
leave the text unchanged. -/
theorem tail_nonpositive_noop_check :
    tailLines ['a', '\n', 'b'] (some 0) = ['a', '\n', 'b']
      ∧ tailLines ['a', '\n', 'b'] (some (-3)) = ['a', '\n', 'b'] :=
  ⟨(tail_nonpositive_noop ['a', '\n', 'b'] 0).2.1 (by decide),
    (tail_nonpositive_noop ['a', '\n', 'b'] (-3)).2.1 (by decide)⟩

-- ── C5 ──────────────────────────────────────────────────────────────────────

/-- C5: every call routed through the `jenkins` helper fails on a non-2xx
response with an error message containing the numeric status code, the
status text, and the first at-most-500 characters of the response body. -/
theorem jenkins_non2xx_error (fetch : Request → HttpResponse) (req : Request)
    (h : (fetch req).ok = false) :
    jenkins fetch req = Except.error (jenkinsErrorText (fetch req))
      ∧ (∃ a b, jenkinsErrorText (fetch req)
          = a ++ toString (fetch req).status ++ b)
      ∧ (∃ a b, jenkinsErrorText (fetch req)
          = a ++ (fetch req).statusText ++ b)
      ∧ (∃ a b, jenkinsErrorText (fetch req)
          = a ++ sliceTo (fetch req).body 500 ++ b)
      ∧ (sliceTo (fetch req).body 500).length ≤ 500 := by
  refine ⟨by simp [jenkins, h], ?_, ?_, ?_, ?_⟩
  · exact ⟨"Jenkins ",
      " " ++ (fetch req).statusText ++ ": " ++ sliceTo (fetch req).body 500,
      by simp [jenkinsErrorText, String.append_assoc]⟩
  · exact ⟨"Jenkins " ++ toString (fetch req).status ++ " ",
      ": " ++ sliceTo (fetch req).body 500,
      by simp [jenkinsErrorText, String.append_assoc]⟩
  · exact ⟨"Jenkins " ++ toString (fetch req).status ++ " "
        ++ (fetch req).statusText ++ ": ", "",
      by simp [jenkinsErrorText, String.append_assoc]⟩
  · show (String.mk ((fetch req).body.data.take 500)).length ≤ 500
    show ((fetch req).body.data.take 500).length ≤ 500
    rw [List.length_take]
    exact Nat.min_le_left _ _

/-- C5 witness: a simulated 500 response with body "internal error" makes
the call fail with an error message containing "500" and
"internal error". -/
theorem jenkins_non2xx_error_check :
    jenkins (fun _ => ⟨500, "Internal Server Error", "internal error", none⟩)
        ⟨"x", "GET", none⟩
      = Except.error "Jenkins 500 Internal Server Error: internal error" := by
  have h := (jenkins_non2xx_error
    (fun _ => ⟨500, "Internal Server Error", "internal error", none⟩)
    ⟨"x", "GET", none⟩ (by decide)).1
  rw [h]
  rfl

-- ── Build triggers (build, build_with_params) ───────────────────────────────

/-- Characters left unescaped by `URLSearchParams` form encoding:
letters, digits, and * - . _. -/
def formUnreserved (c : Char) : Bool :=
  c.isAlphanum || c = '*' || c = '-' || c = '.' || c = '_'

/-- Form encoding of one string as `URLSearchParams` does it: space
becomes '+', unreserved characters pass through, everything else is
percent-encoded via UTF-8. -/
def formEncode (s : String) : String :=
  String.mk (s.data.flatMap fun c =>
    if c = ' ' then ['+']
    else if formUnreserved c then [c]
    else (utf8Bytes c.toNat).flatMap pctByte)

/-- JavaScript `new URLSearchParams(params).toString()`: the
form-encoded key=value pairs joined with ampersands, in insertion
order. -/
def urlSearchParams (ps : List (String × String)) : String :=
  String.intercalate "&"
    (ps.map fun kv => formEncode kv.1 ++ "=" ++ formEncode kv.2)

/-- Lowercase hexadecimal digit for a value below 16. -/
def hexDigitLower (n : Nat) : Char :=
  if n < 10 then Char.ofNat (48 + n) else Char.ofNat (87 + n)

/-- JSON string escaping as `JSON.stringify` performs it on one
character. -/
def jsonEscapeChar (c : Char) : List Char :=
  if c = '"' then ['\\', '"']
  else if c = '\\' then ['\\', '\\']
  else if c = '\n' then ['\\', 'n']
  else if c = '\r' then ['\\', 'r']
  else if c = '\t' then ['\\', 't']
  else if c.toNat = 8 then ['\\', 'b']
  else if c.toNat = 12 then ['\\', 'f']
  else if c.toNat < 32 then
    ['\\', 'u', '0', '0', hexDigitLower (c.toNat / 16),
      hexDigitLower (c.toNat % 16)]
  else [c]

/-- A JSON string literal: escaped content between double quotes. -/
def jsonQuote (s : String) : String :=
  String.mk ('"' :: s.data.flatMap jsonEscapeChar ++ ['"'])

/-- `JSON.stringify` (no indent) of a string-to-string record, in
insertion order. -/
def jsonStringifyRecord (ps : List (String × String)) : String :=
  "\x7b" ++ String.intercalate ","
      (ps.map fun kv => jsonQuote kv.1 ++ ":" ++ jsonQuote kv.2)
    ++ "\x7d"

/-- The request issued by `jenkins_build` (src/mcp/jenkins.mjs:169). -/
def buildRequest (job : String) : Request :=
  ⟨jobPath job ++ "/build", "POST", none⟩

/-- The request issued by `jenkins_build_with_params`
(src/mcp/jenkins.mjs:194-199): POST of the form-encoded parameters. -/
def buildWithParamsRequest (job : String) (ps : List (String × String)) :
    Request :=
  ⟨jobPath job ++ "/buildWithParameters", "POST", some (urlSearchParams ps)⟩

/-- Output text of `jenkins_build` (src/mcp/jenkins.mjs:171-178). -/
def buildText (location : String) : String :=
  "Build triggered successfully.\nQueue URL: " ++ location ++ "\nPoll "
    ++ location ++ "api/json to get the build number once scheduled."

/-- Output text of `jenkins_build_with_params`
(src/mcp/jenkins.mjs:201-208). -/
def buildWithParamsText (ps : List (String × String)) (location : String) :
    String :=
  "Build triggered with parameters: " ++ jsonStringifyRecord ps
    ++ "\nQueue URL: " ++ location

/-- `jenkins_build` (src/mcp/jenkins.mjs:168-179): POST the build trigger
and report the Location header as the queue URL. -/
def jenkins_build (fetch : Request → HttpResponse) (job : String) :
    Except String String :=
  match jenkins fetch (buildRequest job) with
  | Except.error e => Except.error e
  | Except.ok res => Except.ok (buildText (res.location.getD ""))

/-- `jenkins_build_with_params` (src/mcp/jenkins.mjs:193-209). -/
def jenkins_build_with_params (fetch : Request → HttpResponse)
    (job : String) (ps : List (String × String)) : Except String String :=
  match jenkins fetch (buildWithParamsRequest job ps) with
  | Except.error e => Except.error e
  | Except.ok res => Except.ok (buildWithParamsText ps (res.location.getD ""))

-- ── C9 ──────────────────────────────────────────────────────────────────────

/-- C9: on a successful trigger response, the output text of both `build`
and `build_with_params` contains the exact value of the response's
Location header as the queue URL ("Queue URL: " followed by the header
value). -/
theorem build_outputs_location (fetch : Request → HttpResponse)
    (job : String) (ps : List (String × String))
    (h1 : (fetch (buildRequest job)).ok = true)
    (h2 : (fetch (buildWithParamsRequest job ps)).ok = true) :
    (∃ a b, jenkins_build fetch job
        = Except.ok (a ++ "Queue URL: "
            ++ (fetch (buildRequest job)).location.getD "" ++ b))
    ∧ (∃ a b, jenkins_build_with_params fetch job ps
        = Except.ok (a ++ "Queue URL: "
            ++ (fetch (buildWithParamsRequest job ps)).location.getD ""
            ++ b)) := by
  constructor
  · refine ⟨"Build triggered successfully.\n",
      "\nPoll " ++ (fetch (buildRequest job)).location.getD ""
        ++ "api/json to get the build number once scheduled.", ?_⟩
    simp [jenkins_build, jenkins, h1, buildText, String.append_assoc]
  · refine ⟨"Build triggered with parameters: " ++ jsonStringifyRecord ps
        ++ "\n", "", ?_⟩
    simp [jenkins_build_with_params, jenkins, h2, buildWithParamsText,
      String.append_assoc]

/-- C9 witness: with a server answering 201 and Location
"http://jenkins/queue/item/7/", both build tools report that exact queue
URL in their output text. -/
theorem build_outputs_location_check :
    (∃ a b, jenkins_build
        (fun _ => ⟨201, "Created", "", some "http://jenkins/queue/item/7/"⟩)
        "app"
      = Except.ok (a ++ "Queue URL: " ++ "http://jenkins/queue/item/7/" ++ b))
    ∧ (∃ a b, jenkins_build_with_params
        (fun _ => ⟨201, "Created", "", some "http://jenkins/queue/item/7/"⟩)
        "app" [("A", "1")]
      = Except.ok (a ++ "Queue URL: " ++ "http://jenkins/queue/item/7/" ++ b)) :=
  build_outputs_location
    (fun _ => ⟨201, "Created", "", some "http://jenkins/queue/item/7/"⟩)
    "app" [("A", "1")] (by decide) (by decide)

-- ── get_params ──────────────────────────────────────────────────────────────

/-- One entry of a job's `property` array as `jenkins_get_params` reads
it: possibly carrying a `parameterDefinitions` array. The parameter
definitions themselves are opaque to the adapter (type parameter). -/
structure JobProperty (α : Type) where
  parameterDefinitions : Option (List α)

/-- The flattening loop of `jenkins_get_params`
(src/mcp/jenkins.mjs:110-115): collect the parameter-definition arrays of
all properties, in order. -/
def collectParamDefs {α : Type} (props : Option (List (JobProperty α))) :
    List α :=
  (props.getD []).foldl
    (fun acc p =>
      match p.parameterDefinitions with
      | some defs => acc ++ defs
      | none => acc)
    []

/-- The request issued by `jenkins_get_params`
(src/mcp/jenkins.mjs:105-106). -/
def paramsRequest (job : String) : Request :=
  ⟨jobPath job ++ "/api/json?tree=" ++ encodeURIComponent
      "property[parameterDefinitions[name,type,defaultParameterValue[value],description,choices]]",
    "GET", none⟩

/-- `jenkins_get_params` (src/mcp/jenkins.mjs:104-122): fetch the job's
properties, flatten the parameter definitions, and render either the
literal no-parameters message or their JSON. `parse` models
`res.json().property` and `stringify` models `JSON.stringify` on the
flattened list. -/
def jenkins_get_params {α : Type} (fetch : Request → HttpResponse)
    (parse : String → Option (List (JobProperty α)))
    (stringify : List α → String) (job : String) : Except String String :=
  match jenkins fetch (paramsRequest job) with
  | Except.error e => Except.error e
  | Except.ok res =>
    let params := collectParamDefs (parse res.body)
    if params.length = 0 then
      Except.ok "This job has no parameters defined."
    else
      Except.ok (stringify params)

-- ── C8 ──────────────────────────────────────────────────────────────────────

/-- C8: when the flattened parameter-definition list of a successful
get_params response is empty, the result is the literal human-readable
no-parameters message (not the empty JSON array); otherwise it is the
JSON rendering of the flattened list. -/
theorem get_params_no_params_message {α : Type}
    (fetch : Request → HttpResponse)
    (parse : String → Option (List (JobProperty α)))
    (stringify : List α → String) (job : String)
    (hok : (fetch (paramsRequest job)).ok = true) :
    (collectParamDefs (parse (fetch (paramsRequest job)).body) = [] →
      jenkins_get_params fetch parse stringify job
          = Except.ok "This job has no parameters defined."
        ∧ "This job has no parameters defined." ≠ "[]")
    ∧ (collectParamDefs (parse (fetch (paramsRequest job)).body) ≠ [] →
      jenkins_get_params fetch parse stringify job
        = Except.ok (stringify
            (collectParamDefs (parse (fetch (paramsRequest job)).body)))) := by
  constructor
  · intro h
    refine ⟨?_, by decide⟩
    simp only [jenkins_get_params, jenkins, hok]
    simp [h]
  · intro h
    simp only [jenkins_get_params, jenkins, hok]
    simp [List.length_eq_zero, h]

/-- C8 witness: a job whose only property has no parameter definitions
yields the literal message, and a job with one definition yields its
JSON. -/
theorem get_params_no_params_message_check :
    jenkins_get_params (α := String)
        (fun _ => ⟨200, "OK", "", none⟩)
        (fun _ => some [⟨none⟩])
        (fun defs => String.intercalate "," defs)
        "app"
      = Except.ok "This job has no parameters defined."
    ∧ jenkins_get_params (α := String)
        (fun _ => ⟨200, "OK", "", none⟩)
        (fun _ => some [⟨some ["d1"]⟩])
        (fun defs => String.intercalate "," defs)
        "app"
      = Except.ok "d1" :=
  ⟨((get_params_no_params_message
      (fun _ => ⟨200, "OK", "", none⟩) (fun _ => some [⟨none⟩])
      (fun defs => String.intercalate "," defs) "app" (by decide)).1
      (by decide)).1,
    by
      have := (get_params_no_params_message
        (fun _ => ⟨200, "OK", "", none⟩) (fun _ => some [⟨some ["d1"]⟩])
        (fun defs => String.intercalate "," defs) "app" (by decide)).2
        (by decide)
      rw [this]
      rfl⟩

-- ── Rebuild: parameter extraction ───────────────────────────────────────────

/-- A JSON scalar as it may appear in a recorded parameter value. -/
inductive JValue where
  | str (s : String)
  | num (n : Int)
  | boolean (b : Bool)
  | null
deriving DecidableEq, Repr

/-- JavaScript `String(v)` on a JSON scalar. -/
def JValue.toJSString : JValue → String
  | JValue.str s => s
  | JValue.num n => toString n
  | JValue.boolean true => "true"
  | JValue.boolean false => "false"
  | JValue.null => "null"

/-- One entry of a recorded parameter action: name and value may each be
absent (`undefined`). A JavaScript-truthy name is a present, non-empty
string. -/
structure ParamEntry where
  name : Option String
  value : Option JValue
deriving DecidableEq, Repr

/-- One entry of the prior build's `actions` array: may carry a
`parameters` array. -/
structure BuildAction where
  parameters : Option (List ParamEntry)
deriving DecidableEq, Repr

/-- JavaScript object assignment `params[k] = v` on an assoc list with
unique keys: overwrite in place when the key exists, append otherwise. -/
def insertParam (ps : List (String × String)) (k v : String) :
    List (String × String) :=
  if ps.any (fun p => p.1 = k) then
    ps.map fun p => if p.1 = k then (k, v) else p
  else ps ++ [(k, v)]

/-- The body of rebuild's extraction loop (src/mcp/jenkins.mjs:232-234):
an entry contributes exactly when its name is truthy and its value is not
undefined, and its value is coerced with `String(...)`. -/
def paramStep (ps : List (String × String)) (p : ParamEntry) :
    List (String × String) :=
  match p.name, p.value with
  | some n, some v => if n.isEmpty then ps else insertParam ps n v.toJSString
  | _, _ => ps

/-- All parameter entries of the recorded actions, in iteration order
(outer loop over `info.actions || []`, inner over
`action.parameters || []`). -/
def allParamEntries (actions : Option (List BuildAction)) : List ParamEntry :=
  ((actions.getD []).map fun a => a.parameters.getD []).flatten

/-- The nested extraction loops of `jenkins_rebuild`
(src/mcp/jenkins.mjs:229-236). -/
def extractParams (actions : Option (List BuildAction)) :
    List (String × String) :=
  (actions.getD []).foldl
    (fun ps a => (a.parameters.getD []).foldl paramStep ps) []

theorem foldl_inner_flatten (acts : List BuildAction) :
    ∀ ps : List (String × String),
      acts.foldl (fun ps a => (a.parameters.getD []).foldl paramStep ps) ps
        = ((acts.map fun a => a.parameters.getD []).flatten).foldl
            paramStep ps := by
  induction acts with
  | nil => intro ps; rfl
  | cons a as ih =>
    intro ps
    simp only [List.foldl_cons, List.map_cons, List.flatten_cons,
      List.foldl_append]
    exact ih _

theorem extractParams_eq_foldl (actions : Option (List BuildAction)) :
    extractParams actions = (allParamEntries actions).foldl paramStep [] := by
  unfold extractParams allParamEntries
  exact foldl_inner_flatten _ []

-- ── insertParam facts ───────────────────────────────────────────────────────

theorem mem_insertParam_elim {ps : List (String × String)} {k v k' v' : String}
    (h : (k', v') ∈ insertParam ps k v) :
    (k', v') ∈ ps ∨ (k' = k ∧ v' = v) := by
  unfold insertParam at h
  by_cases ha : ps.any (fun p => p.1 = k)
  · rw [if_pos ha] at h
    obtain ⟨p, hp, hpe⟩ := List.mem_map.1 h
    by_cases hk : p.1 = k
    · rw [if_pos hk] at hpe
      injection hpe with h1 h2
      exact Or.inr ⟨h1.symm, h2.symm⟩
    · rw [if_neg hk] at hpe
      exact Or.inl (hpe ▸ hp)
  · rw [if_neg ha] at h
    rcases List.mem_append.1 h with hl | hr
    · exact Or.inl hl
    · simp at hr
      exact Or.inr hr

theorem insertParam_has_key (ps : List (String × String)) (k v : String) :
    ∃ v', (k, v') ∈ insertParam ps k v := by
  unfold insertParam
  by_cases ha : ps.any (fun p => p.1 = k)
  · rw [if_pos ha]
    obtain ⟨p, hp, hk⟩ := List.any_eq_true.1 ha
    refine ⟨v, List.mem_map.2 ⟨p, hp, ?_⟩⟩
    rw [if_pos (of_decide_eq_true hk)]
  · rw [if_neg ha]
    exact ⟨v, List.mem_append.2 (Or.inr (by simp))⟩

theorem insertParam_keeps_key {ps : List (String × String)} {k' : String}
    (k v : String) (h : ∃ v', (k', v') ∈ ps) :
    ∃ v', (k', v') ∈ insertParam ps k v := by
  obtain ⟨w, hw⟩ := h
  by_cases hk : k' = k
  · exact hk ▸ insertParam_has_key ps k v
  · unfold insertParam
    by_cases ha : ps.any (fun p => p.1 = k)
    · rw [if_pos ha]
      refine ⟨w, List.mem_map.2 ⟨(k', w), hw, ?_⟩⟩
      rw [if_neg hk]
    · rw [if_neg ha]
      exact ⟨w, List.mem_append.2 (Or.inl hw)⟩

/-- An entry passes rebuild's filter for key k when its name is the
non-empty string k and its value is defined. -/
def passes (p : ParamEntry) (k : String) : Prop :=
  p.name = some k ∧ k.isEmpty = false ∧ p.value.isSome = true

instance (p : ParamEntry) (k : String) : Decidable (passes p k) := by
  unfold passes
  infer_instance

-- ── foldl paramStep invariants ──────────────────────────────────────────────

theorem foldl_paramStep_key (l : List ParamEntry)
    (ps : List (String × String)) (k : String) :
    (∃ v, (k, v) ∈ l.foldl paramStep ps)
      ↔ (∃ v, (k, v) ∈ ps) ∨ ∃ p ∈ l, passes p k := by
  induction l generalizing ps with
  | nil => simp
  | cons p t ih =>
    rw [List.foldl_cons, ih]
    constructor
    · rintro (hin | hrest)
      · match hname : p.name, hval : p.value with
        | some n, some v =>
          simp only [paramStep, hname, hval] at hin
          by_cases hn : n.isEmpty
          · rw [if_pos hn] at hin
            exact Or.inl hin
          · rw [if_neg hn] at hin
            obtain ⟨w, hw⟩ := hin
            rcases mem_insertParam_elim hw with h1 | h2
            · exact Or.inl ⟨w, h1⟩
            · refine Or.inr ⟨p, List.mem_cons_self _ _, ?_⟩
              rw [h2.1]
              exact ⟨hname, Bool.eq_false_iff.2 hn, by rw [hval]; rfl⟩
        | some n, none =>
          simp only [paramStep, hname, hval] at hin
          exact Or.inl hin
        | none, _ =>
          simp only [paramStep, hname] at hin
          exact Or.inl hin
      · obtain ⟨q, hq, hpass⟩ := hrest
        exact Or.inr ⟨q, List.mem_cons_of_mem _ hq, hpass⟩
    · rintro (hin | ⟨q, hq, hpass⟩)
      · left
        match hname : p.name, hval : p.value with
        | some n, some v =>
          simp only [paramStep, hname, hval]
          by_cases hn : n.isEmpty
          · rw [if_pos hn]; exact hin
          · rw [if_neg hn]
            exact insertParam_keeps_key n v.toJSString hin
        | some n, none => simpa [paramStep, hname, hval] using hin
        | none, _ => simpa [paramStep, hname] using hin
      · rcases List.mem_cons.1 hq with hq1 | hq2
        · subst hq1
          left
          obtain ⟨hname, hke, hval⟩ := hpass
          obtain ⟨w, hw⟩ := Option.isSome_iff_exists.1 hval
          simp only [paramStep, hname, hw]
          rw [if_neg (by rw [hke]; exact Bool.false_ne_true ∘ id)]
          exact insertParam_has_key ps k w.toJSString
        · exact Or.inr ⟨q, hq2, hpass⟩

theorem foldl_paramStep_source (l : List ParamEntry) :
    ∀ (ps : List (String × String)) (k v : String),
      (k, v) ∈ l.foldl paramStep ps →
      (k, v) ∈ ps
        ∨ ∃ p ∈ l, p.name = some k ∧ k.isEmpty = false
            ∧ ∃ w, p.value = some w ∧ v = w.toJSString := by
  induction l with
  | nil => intro ps k v h; exact Or.inl h
  | cons p t ih =>
    intro ps k v h
    rw [List.foldl_cons] at h
    rcases ih (paramStep ps p) k v h with hin | ⟨q, hq, hrest⟩
    · match hname : p.name, hval : p.value with
      | some n, some w =>
        simp only [paramStep, hname, hval] at hin
        by_cases hn : n.isEmpty
        · rw [if_pos hn] at hin
          exact Or.inl hin
        · rw [if_neg hn] at hin
          rcases mem_insertParam_elim hin with h1 | ⟨hk, hv⟩
          · exact Or.inl h1
          · refine Or.inr ⟨p, List.mem_cons_self _ _, ?_⟩
            subst hk
            exact ⟨hname, Bool.eq_false_iff.2 hn, w, hval, hv⟩
      | some n, none =>
        simp only [paramStep, hname, hval] at hin
        exact Or.inl hin
      | none, _ =>
        simp only [paramStep, hname] at hin
        exact Or.inl hin
    · exact Or.inr ⟨q, List.mem_cons_of_mem _ hq, hrest⟩

-- ── C6 ──────────────────────────────────────────────────────────────────────

/-- C6: a key appears in rebuild's extracted parameter set exactly when
some recorded entry has that key as a (truthy) name together with a
defined value; and every extracted value is the JavaScript string
coercion of the defined value of such an entry. -/
theorem extract_params_filter (actions : Option (List BuildAction)) :
    (∀ k : String,
      (∃ v, (k, v) ∈ extractParams actions)
        ↔ ∃ p ∈ allParamEntries actions, passes p k)
    ∧ ∀ k v, (k, v) ∈ extractParams actions →
        ∃ p ∈ allParamEntries actions,
          p.name = some k ∧ k.isEmpty = false
            ∧ ∃ w, p.value = some w ∧ v = w.toJSString := by
  constructor
  · intro k
    rw [extractParams_eq_foldl, foldl_paramStep_key]
    simp
  · intro k v h
    rw [extractParams_eq_foldl] at h
    rcases foldl_paramStep_source (allParamEntries actions) [] k v h with
      habs | hsrc
    · simp at habs
    · exact hsrc

/-- C6 witness: from recorded actions holding entries (A, "1"),
(no name, null) and (B, undefined), the key A is extracted, and the key
B — whose value is undefined — is not. -/
theorem extract_params_filter_check :
    (∃ v, ("A", v) ∈ extractParams (some
        [⟨some [⟨some "A", some (JValue.str "1")⟩, ⟨none, some JValue.null⟩,
          ⟨some "B", none⟩]⟩]))
    ∧ ¬ ∃ v, ("B", v) ∈ extractParams (some
        [⟨some [⟨some "A", some (JValue.str "1")⟩, ⟨none, some JValue.null⟩,
          ⟨some "B", none⟩]⟩]) := by
  constructor
  · exact ((extract_params_filter (some
        [⟨some [⟨some "A", some (JValue.str "1")⟩, ⟨none, some JValue.null⟩,
          ⟨some "B", none⟩]⟩])).1 "A").2 (by decide)
  · intro h
    exact absurd (((extract_params_filter (some
        [⟨some [⟨some "A", some (JValue.str "1")⟩, ⟨none, some JValue.null⟩,
          ⟨some "B", none⟩]⟩])).1 "B").1 h) (by decide)

-- ── Rebuild: two-step flow ──────────────────────────────────────────────────

/-- The first request of `jenkins_rebuild` (src/mcp/jenkins.mjs:223-226):
GET of the prior build's recorded parameter actions. -/
def infoRequest (job buildRef : String) : Request :=
  ⟨jobPath job ++ "/" ++ buildRef ++ "/api/json?tree="
      ++ encodeURIComponent "actions[parameters[name,value]]",
    "GET", none⟩

/-- Output text of `jenkins_rebuild` (src/mcp/jenkins.mjs:252-259). -/
def rebuildText (buildRef : String) (ps : List (String × String))
    (location : String) : String :=
  "Rebuild of #" ++ buildRef ++ " triggered.\nExtracted parameters: "
    ++ jsonStringifyRecord ps ++ "\nQueue URL: " ++ location

/-- `jenkins_rebuild` (src/mcp/jenkins.mjs:221-260): fetch the prior
build's parameter actions, extract the parameter set, then trigger the
parameterized build when it is non-empty and the plain build otherwise.
`parseActions` models `res.json().actions`. The result pairs the list of
requests actually issued, in order, with the call's outcome. -/
def jenkins_rebuild (fetch : Request → HttpResponse)
    (parseActions : String → Option (List BuildAction))
    (job buildRef : String) : List Request × Except String String :=
  let req1 := infoRequest job buildRef
  match jenkins fetch req1 with
  | Except.error e => ([req1], Except.error e)
  | Except.ok infoRes =>
    let params := extractParams (parseActions infoRes.body)
    let req2 := if 0 < params.length then buildWithParamsRequest job params
      else buildRequest job
    match jenkins fetch req2 with
    | Except.error e => ([req1, req2], Except.error e)
    | Except.ok res =>
      ([req1, req2],
        Except.ok (rebuildText buildRef params (res.location.getD "")))

/-- The second request rebuild issues (src/mcp/jenkins.mjs:239-249):
the parameterized POST when the extracted set is non-empty, the plain
build POST otherwise. -/
def rebuildSecondRequest (fetch : Request → HttpResponse)
    (parseActions : String → Option (List BuildAction))
    (job buildRef : String) : Request :=
  if 0 < (extractParams
      (parseActions (fetch (infoRequest job buildRef)).body)).length
  then buildWithParamsRequest job
    (extractParams (parseActions (fetch (infoRequest job buildRef)).body))
  else buildRequest job

theorem jenkins_rebuild_step1_ok (fetch : Request → HttpResponse)
    (parseActions : String → Option (List BuildAction))
    (job buildRef : String)
    (hok : (fetch (infoRequest job buildRef)).ok = true) :
    jenkins_rebuild fetch parseActions job buildRef
      = (match jenkins fetch
            (rebuildSecondRequest fetch parseActions job buildRef) with
        | Except.error e =>
          ([infoRequest job buildRef,
            rebuildSecondRequest fetch parseActions job buildRef],
            Except.error e)
        | Except.ok res =>
          ([infoRequest job buildRef,
            rebuildSecondRequest fetch parseActions job buildRef],
            Except.ok (rebuildText buildRef
              (extractParams
                (parseActions (fetch (infoRequest job buildRef)).body))
              (res.location.getD "")))) := by
  simp only [jenkins_rebuild, jenkins, rebuildSecondRequest, hok, if_true]

theorem rebuildSecondRequest_pos (fetch : Request → HttpResponse)
    (parseActions : String → Option (List BuildAction))
    (job buildRef : String)
    (h : extractParams (parseActions (fetch (infoRequest job buildRef)).body)
      ≠ []) :
    rebuildSecondRequest fetch parseActions job buildRef
      = buildWithParamsRequest job
          (extractParams
            (parseActions (fetch (infoRequest job buildRef)).body)) := by
  unfold rebuildSecondRequest
  rw [if_pos (List.length_pos.2 h)]

theorem rebuildSecondRequest_nil (fetch : Request → HttpResponse)
    (parseActions : String → Option (List BuildAction))
    (job buildRef : String)
    (h : extractParams (parseActions (fetch (infoRequest job buildRef)).body)
      = []) :
    rebuildSecondRequest fetch parseActions job buildRef
      = buildRequest job := by
  unfold rebuildSecondRequest
  rw [h]
  rfl

theorem jenkins_rebuild_trace (fetch : Request → HttpResponse)
    (parseActions : String → Option (List BuildAction))
    (job buildRef : String)
    (hok : (fetch (infoRequest job buildRef)).ok = true) :
    (jenkins_rebuild fetch parseActions job buildRef).1
      = [infoRequest job buildRef,
        rebuildSecondRequest fetch parseActions job buildRef] := by
  rw [jenkins_rebuild_step1_ok fetch parseActions job buildRef hok]
  cases jenkins fetch (rebuildSecondRequest fetch parseActions job buildRef)
    <;> rfl

theorem length_append_strings (s t : String) :
    (s ++ t).length = s.length + t.length := by
  exact String.length_append s t

-- ── C1 ──────────────────────────────────────────────────────────────────────

/-- C1: after a successful first step, rebuild's second request is the
POST to the parameterized-build endpoint carrying exactly the extracted
parameter set when that set is non-empty — and no issued request targets
the no-parameter endpoint — while an empty extracted set makes the second
request the POST to the unparameterized endpoint. -/
theorem rebuild_endpoint_selection (fetch : Request → HttpResponse)
    (parseActions : String → Option (List BuildAction))
    (job buildRef : String)
    (hok : (fetch (infoRequest job buildRef)).ok = true) :
    (extractParams (parseActions (fetch (infoRequest job buildRef)).body) ≠ [] →
      (jenkins_rebuild fetch parseActions job buildRef).1
          = [infoRequest job buildRef,
            buildWithParamsRequest job
              (extractParams
                (parseActions (fetch (infoRequest job buildRef)).body))]
        ∧ ∀ r ∈ (jenkins_rebuild fetch parseActions job buildRef).1,
            r.path ≠ jobPath job ++ "/build")
    ∧ (extractParams (parseActions (fetch (infoRequest job buildRef)).body) = [] →
      (jenkins_rebuild fetch parseActions job buildRef).1
        = [infoRequest job buildRef, buildRequest job]) := by
  have htr := jenkins_rebuild_trace fetch parseActions job buildRef hok
  constructor
  · intro hne
    have htrace : (jenkins_rebuild fetch parseActions job buildRef).1
        = [infoRequest job buildRef,
          buildWithParamsRequest job
            (extractParams
              (parseActions (fetch (infoRequest job buildRef)).body))] := by
      rw [htr, rebuildSecondRequest_pos fetch parseActions job buildRef hne]
    refine ⟨htrace, ?_⟩
    intro r hr
    rw [htrace] at hr
    have hinfo : (infoRequest job buildRef).path ≠ jobPath job ++ "/build" := by
      intro he
      have hl := congrArg String.length he
      simp only [infoRequest, length_append_strings] at hl
      rw [show ("/" : String).length = 1 from rfl,
        show ("/api/json?tree=" : String).length = 15 from rfl,
        show ("/build" : String).length = 6 from rfl] at hl
      omega
    have hbwp : (buildWithParamsRequest job
        (extractParams
          (parseActions (fetch (infoRequest job buildRef)).body))).path
        ≠ jobPath job ++ "/build" := by
      intro he
      have hl := congrArg String.length he
      simp only [buildWithParamsRequest, length_append_strings] at hl
      rw [show ("/buildWithParameters" : String).length = 20 from rfl,
        show ("/build" : String).length = 6 from rfl] at hl
      omega
    rcases List.mem_cons.1 hr with h1 | h2
    · rw [h1]; exact hinfo
    · rw [List.mem_singleton.1 h2]; exact hbwp
  · intro hnil
    rw [htr, rebuildSecondRequest_nil fetch parseActions job buildRef hnil]

/-- C1 witness: with a prior build recording parameters A=1 and B=2, the
second request is the parameterized POST carrying exactly those two
parameters and no issued request targets the plain build endpoint; with a
prior build recording no parameters, the second request is the plain
build POST. -/
theorem rebuild_endpoint_selection_check :
    (jenkins_rebuild (fun _ => ⟨200, "OK", "", some "http://q/1/"⟩)
        (fun _ => some [⟨some [⟨some "A", some (JValue.str "1")⟩,
          ⟨some "B", some (JValue.str "2")⟩]⟩]) "app" "41").1
      = [infoRequest "app" "41",
        buildWithParamsRequest "app" [("A", "1"), ("B", "2")]]
    ∧ (jenkins_rebuild (fun _ => ⟨200, "OK", "", some "http://q/1/"⟩)
        (fun _ => some []) "app" "41").1
      = [infoRequest "app" "41", buildRequest "app"] := by
  constructor
  · have h := ((rebuild_endpoint_selection
      (fun _ => ⟨200, "OK", "", some "http://q/1/"⟩)
      (fun _ => some [⟨some [⟨some "A", some (JValue.str "1")⟩,
        ⟨some "B", some (JValue.str "2")⟩]⟩]) "app" "41"
      (by decide)).1 (by decide)).1
    rw [h]
    rfl
  · exact (rebuild_endpoint_selection
      (fun _ => ⟨200, "OK", "", some "http://q/1/"⟩)
      (fun _ => some []) "app" "41" (by decide)).2 (by decide)

-- ── C7 ──────────────────────────────────────────────────────────────────────

/-- C7: when rebuild's first request fails, the call aborts with that
request's error and the info GET is the only request issued — no
build-trigger POST goes out; when the first succeeds and the second
fails, the call's error is the second response's own formatted status. -/
theorem rebuild_error_propagation (fetch : Request → HttpResponse)
    (parseActions : String → Option (List BuildAction))
    (job buildRef : String) :
    ((fetch (infoRequest job buildRef)).ok = false →
      jenkins_rebuild fetch parseActions job buildRef
          = ([infoRequest job buildRef],
            Except.error (jenkinsErrorText (fetch (infoRequest job buildRef))))
        ∧ (infoRequest job buildRef).method = "GET")
    ∧ ((fetch (infoRequest job buildRef)).ok = true →
      (fetch (rebuildSecondRequest fetch parseActions job buildRef)).ok
          = false →
      jenkins_rebuild fetch parseActions job buildRef
        = ([infoRequest job buildRef,
            rebuildSecondRequest fetch parseActions job buildRef],
          Except.error (jenkinsErrorText
            (fetch (rebuildSecondRequest fetch parseActions job buildRef))))) := by
  constructor
  · intro hfail
    refine ⟨?_, rfl⟩
    simp only [jenkins_rebuild, jenkins, hfail]
    rfl
  · intro hok hfail
    rw [jenkins_rebuild_step1_ok fetch parseActions job buildRef hok]
    simp only [jenkins, hfail]
    rfl

/-- C7 witness: a server failing the info GET with a 404 makes rebuild
abort after that single GET with the 404 error; a server that accepts the
GET but fails the trigger POST with a 403 surfaces the 403 as the call's
error, after both requests. -/
theorem rebuild_error_propagation_check :
    jenkins_rebuild (fun _ => ⟨404, "Not Found", "missing", none⟩)
        (fun _ => some []) "app" "41"
      = ([infoRequest "app" "41"],
        Except.error "Jenkins 404 Not Found: missing")
    ∧ jenkins_rebuild
        (fun r => if r.method = "GET" then ⟨200, "OK", "", none⟩
          else ⟨403, "Forbidden", "denied", none⟩)
        (fun _ => some []) "app" "41"
      = ([infoRequest "app" "41", buildRequest "app"],
        Except.error "Jenkins 403 Forbidden: denied") := by
  constructor
  · have h := ((rebuild_error_propagation
      (fun _ => ⟨404, "Not Found", "missing", none⟩)
      (fun _ => some []) "app" "41").1 (by decide)).1
    rw [h]
    rfl
  · have h := (rebuild_error_propagation
      (fun r => if r.method = "GET" then ⟨200, "OK", "", none⟩
        else ⟨403, "Forbidden", "denied", none⟩)
      (fun _ => some []) "app" "41").2 (by decide) (by decide)
    rw [h]
    rfl

end Jenkins
